import Mathlib

/-!
Verification of the nokhwa-node camera pipeline against its design
specification.

The development shallowly embeds the Rust sources:
* `src/conversions.rs` / `src/stream.rs` — frame decode dispatch and the
  RGB→RGBA channel expansion;
* `src/camera.rs` / `src/nokhwa.rs` — format-negotiating camera creation,
  the 60-slot frame-time ring buffer, the EMA-based FPS estimate, the PID
  pacing controller and the streaming loop body;
* `src/lib.rs` — the N-API backend enum conversions and the standalone
  buffer-conversion wrappers.

Bytes are modelled as `Nat`, `f64` quantities as `ℚ` (the claims under
scrutiny are structural, not rounding-sensitive), fallible Rust functions
as `Option`/`Except`, and a Rust panic as `Option.none`.
-/

namespace NokhwaNode

/-! ## RGB → RGBA expansion (`conversions.rs::rgb_to_rgba`, `stream.rs::rgb_to_rgba`)

The Rust source iterates `rgb.chunks(3)` and pushes `chunk[0]`, `chunk[1]`,
`chunk[2]`, `255`.  A trailing chunk of length 1 or 2 makes `chunk[1]` or
`chunk[2]` an out-of-bounds index, i.e. a panic; we model that outcome as
`none`. -/

def rgb_to_rgba : List ℕ → Option (List ℕ)
  | [] => some []
  | r :: g :: b :: rest => (rgb_to_rgba rest).map (fun t => r :: g :: b :: 255 :: t)
  | [_] => none
  | [_, _] => none

lemma rgb_to_rgba_ok (l : List ℕ) (n : ℕ) (h : l.length = 3 * n) :
    ∃ out, rgb_to_rgba l = some out ∧ out.length = 4 * n ∧
      ∀ i, i < n →
        out.get? (4 * i) = l.get? (3 * i) ∧
        out.get? (4 * i + 1) = l.get? (3 * i + 1) ∧
        out.get? (4 * i + 2) = l.get? (3 * i + 2) ∧
        out.get? (4 * i + 3) = some 255 := by
  induction n generalizing l with
  | zero =>
      have hl : l = [] := List.length_eq_zero.mp (by omega)
      subst hl
      exact ⟨[], rfl, rfl, fun i hi => absurd hi (Nat.not_lt_zero i)⟩
  | succ n ih =>
      match l, h with
      | r :: g :: b :: rest, h =>
        have hrest : rest.length = 3 * n := by
          simp only [List.length_cons] at h; omega
        obtain ⟨out, hout, hlen, hidx⟩ := ih rest hrest
        refine ⟨r :: g :: b :: 255 :: out, ?_, ?_, ?_⟩
        · simp [rgb_to_rgba, hout]
        · simp [hlen]; ring
        · intro i hi
          cases i with
          | zero => simp
          | succ j =>
              have hj : j < n := by omega
              obtain ⟨h0, h1, h2, h3⟩ := hidx j hj
              have e0 : 4 * (j + 1) = (4 * j) + 4 := by ring
              have e1 : 4 * (j + 1) + 1 = (4 * j + 1) + 4 := by ring
              have e2 : 4 * (j + 1) + 2 = (4 * j + 2) + 4 := by ring
              have e3 : 4 * (j + 1) + 3 = (4 * j + 3) + 4 := by ring
              have f0 : 3 * (j + 1) = (3 * j) + 3 := by ring
              have f1 : 3 * (j + 1) + 1 = (3 * j + 1) + 3 := by ring
              have f2 : 3 * (j + 1) + 2 = (3 * j + 2) + 3 := by ring
              refine ⟨?_, ?_, ?_, ?_⟩
              · rw [e0, f0]; simpa using h0
              · rw [e1, f1]; simpa using h1
              · rw [e2, f2]; simpa using h2
              · rw [e3]; simpa using h3

/-- Claim C3: for every input byte list of length `3·n`, `rgb_to_rgba`
succeeds with a buffer of length exactly `4·n` in which, for every `i < n`,
output bytes `4i`, `4i+1`, `4i+2` equal input bytes `3i`, `3i+1`, `3i+2`
and output byte `4i+3` equals `255`. -/
theorem rgb_to_rgba_expansion (l : List ℕ) (n : ℕ) (h : l.length = 3 * n) :
    ∃ out, rgb_to_rgba l = some out ∧ out.length = 4 * n ∧
      ∀ i, i < n →
        out.get? (4 * i) = l.get? (3 * i) ∧
        out.get? (4 * i + 1) = l.get? (3 * i + 1) ∧
        out.get? (4 * i + 2) = l.get? (3 * i + 2) ∧
        out.get? (4 * i + 3) = some 255 :=
  rgb_to_rgba_ok l n h

theorem rgb_to_rgba_expansion_witness :
    ([10, 20, 30, 40, 50, 60] : List ℕ).length = 3 * 2 ∧
    ∃ out, rgb_to_rgba [10, 20, 30, 40, 50, 60] = some out ∧ out.length = 4 * 2 ∧
      ∀ i, i < 2 →
        out.get? (4 * i) = ([10, 20, 30, 40, 50, 60] : List ℕ).get? (3 * i) ∧
        out.get? (4 * i + 1) = ([10, 20, 30, 40, 50, 60] : List ℕ).get? (3 * i + 1) ∧
        out.get? (4 * i + 2) = ([10, 20, 30, 40, 50, 60] : List ℕ).get? (3 * i + 2) ∧
        out.get? (4 * i + 3) = some 255 :=
  ⟨rfl, rgb_to_rgba_expansion [10, 20, 30, 40, 50, 60] 2 rfl⟩

lemma rgb_to_rgba_ragged_aux : ∀ l : List ℕ, l.length % 3 ≠ 0 → rgb_to_rgba l = none
  | [], h => by simp at h
  | [_], _ => rfl
  | [_, _], _ => rfl
  | _ :: _ :: _ :: rest, h => by
      have hr : rest.length % 3 ≠ 0 := by
        simp only [List.length_cons] at h; omega
      have hres := rgb_to_rgba_ragged_aux rest hr
      simp [rgb_to_rgba, hres]

/-- Claim C4: for every input byte list whose length is not divisible by 3,
`rgb_to_rgba` fails (the Rust code hits an out-of-bounds chunk index, a
panic, modelled as `none`) rather than silently truncating. -/
theorem rgb_to_rgba_rejects_ragged (l : List ℕ) (h : l.length % 3 ≠ 0) :
    rgb_to_rgba l = none :=
  rgb_to_rgba_ragged_aux l h

theorem rgb_to_rgba_rejects_ragged_witness :
    ([1, 2, 3, 4] : List ℕ).length % 3 ≠ 0 ∧ rgb_to_rgba [1, 2, 3, 4] = none :=
  ⟨by decide, rgb_to_rgba_rejects_ragged [1, 2, 3, 4] (by decide)⟩

/-! ## N-API backend enum conversions (`lib.rs::convert_backend`,
`lib.rs::convert_backend_to_napi`; duplicated in `conversions.rs`) -/

/-- The N-API `ApiBackend` enum from `types.rs`. -/
inductive ApiBackend
  | Auto
  | MediaFoundation
  | AVFoundation
  | OpenCv
  | Browser
  deriving DecidableEq, Fintype

/-- The `nokhwa::utils::ApiBackend` enum (the variants matched by
`convert_backend_to_napi`). -/
inductive NokhwaApiBackend
  | Auto
  | MediaFoundation
  | AVFoundation
  | OpenCv
  | Browser
  | Video4Linux
  | UniversalVideoClass
  | GStreamer
  | Network
  deriving DecidableEq, Fintype

def convert_backend : ApiBackend → NokhwaApiBackend
  | .Auto => .Auto
  | .MediaFoundation => .MediaFoundation
  | .AVFoundation => .AVFoundation
  | .OpenCv => .OpenCv
  | .Browser => .Browser

def convert_backend_to_napi : NokhwaApiBackend → ApiBackend
  | .Auto => .Auto
  | .MediaFoundation => .MediaFoundation
  | .AVFoundation => .AVFoundation
  | .OpenCv => .OpenCv
  | .Browser => .Browser
  | .Video4Linux => .Auto
  | .UniversalVideoClass => .Auto
  | .GStreamer => .Auto
  | .Network => .Auto

/-- Claim C10: converting every N-API `ApiBackend` value to the nokhwa
backend and back is the identity. -/
theorem convert_backend_roundtrip :
    ∀ b : ApiBackend, convert_backend_to_napi (convert_backend b) = b := by
  decide

/-! ## Device acquisition negotiator (`camera.rs::create_camera`,
duplicated in `nokhwa.rs::create_camera`)

The source iterates the fixed candidate list RGBA, RGB, YUYV.  Each
attempt runs `panic::catch_unwind(|| Camera::new(...))`:
* `Ok(Ok(cam))` — the open succeeded; `cam.open_stream()` is attempted at
  once, success returns the camera, failure continues with the next
  candidate;
* `Ok(Err(_))` — `Camera::new` returned an error; continue;
* `Err(_)` — a panic was caught; continue.
If the loop exhausts the candidates the function returns
`Err(anyhow!("Could not create camera with any supported format"))`.

The device layer is modelled as an oracle assigning one `OpenOutcome` per
candidate; `create_camera_go` additionally records the list of candidates
attempted (the trace of loop iterations). -/

/-- A candidate pixel format request. -/
inductive FormatCandidate
  | RGBA
  | RGB
  | YUYV
  deriving DecidableEq, Fintype

/-- Outcome of one `catch_unwind(Camera::new)` attempt: a caught panic, an
open error, or a successful open together with the result of the immediate
`open_stream` call. -/
inductive OpenOutcome
  | caughtPanic
  | openErr
  | opened (startOk : Bool)
  deriving DecidableEq, Fintype

/-- The fixed candidate list, in declared order. -/
def requested_formats : List FormatCandidate := [.RGBA, .RGB, .YUYV]

def create_camera_go (dev : FormatCandidate → OpenOutcome) :
    List FormatCandidate → List FormatCandidate × Except String FormatCandidate
  | [] => ([], .error "Could not create camera with any supported format")
  | c :: rest =>
    match dev c with
    | .opened true => ([c], .ok c)
    | .opened false =>
        let r := create_camera_go dev rest
        (c :: r.1, r.2)
    | .openErr =>
        let r := create_camera_go dev rest
        (c :: r.1, r.2)
    | .caughtPanic =>
        let r := create_camera_go dev rest
        (c :: r.1, r.2)

deriving instance DecidableEq for Except

/-- `camera.rs::create_camera`, with the device layer abstracted to the
outcome oracle `dev`. -/
def create_camera (dev : FormatCandidate → OpenOutcome) : Except String FormatCandidate :=
  (create_camera_go dev requested_formats).2

/-- The candidates attempted, in the order the loop tried them. -/
def attemptTrace (dev : FormatCandidate → OpenOutcome) : List FormatCandidate :=
  (create_camera_go dev requested_formats).1

/-- Collapses a caught panic to an ordinary open error; the claim says both
are treated identically. -/
def panicAsErr : OpenOutcome → OpenOutcome
  | .caughtPanic => .openErr
  | o => o

set_option maxRecDepth 4000 in
/-- Claim C1: the negotiator attempts the candidates RGBA, RGB, YUYV
strictly in declared order (the trace is the prefix of the candidate list
that ends at the first fully successful candidate, or the whole list); a
caught panic is treated identically to a returned error (the result and the
trace depend only on the outcomes up to `panicAsErr`); the first candidate
that both opens and starts its stream is returned; if every candidate
fails, an error is returned. -/
theorem create_camera_negotiation :
    ∀ dev : FormatCandidate → OpenOutcome,
      (create_camera dev =
        match requested_formats.find? (fun c => dev c == .opened true) with
        | some c => .ok c
        | none => .error "Could not create camera with any supported format")
      ∧ attemptTrace dev =
          requested_formats.take
            (requested_formats.findIdx (fun c => dev c == .opened true) + 1)
      ∧ ∀ dev2 : FormatCandidate → OpenOutcome,
          (∀ c, panicAsErr (dev c) = panicAsErr (dev2 c)) →
          create_camera dev = create_camera dev2 ∧ attemptTrace dev = attemptTrace dev2 := by
  decide

/-- A device on which only the third candidate succeeds: the negotiator
attempts exactly three opens, in declared order, and returns the third. -/
def devThirdOnly : FormatCandidate → OpenOutcome
  | .RGBA => .caughtPanic
  | .RGB => .openErr
  | .YUYV => .opened true

theorem create_camera_negotiation_witness :
    create_camera devThirdOnly = .ok .YUYV ∧
    attemptTrace devThirdOnly = [.RGBA, .RGB, .YUYV] := by
  have h := create_camera_negotiation devThirdOnly
  exact ⟨h.1.trans (by decide), h.2.1.trans (by decide)⟩

/-! ## Frame decode dispatch (`conversions.rs::capture_frame`,
duplicated in `stream.rs::capture_frame`)

`capture_frame` first calls `camera.frame()` (modelled as an
`Option CameraBuffer`: `none` is a capture error), then dispatches on
`buffer.source_frame_format()`.  The three `decode_image::<_>` calls on the
buffer are modelled as oracle fields of the buffer: `decodeRGBA` for
`RgbAFormat`, `decodeRGB` for `RgbFormat` and `decodeYUYV` for
`YuyvFormat` (which yields 3-channel RGB data in the source). -/

/-- `nokhwa::utils::FrameFormat` (the variants the dispatch distinguishes,
plus the remaining ones hit by the catch-all arm). -/
inductive FrameFormat
  | MJPEG
  | YUYV
  | NV12
  | GRAY
  | RAWRGB
  deriving DecidableEq

inductive CaptureError
  | captureFailed
  | decodeMJPEGFailed
  | decodeYUYVFailed
  | decodeNV12Failed
  | frameDecodeError (fmt : FrameFormat)
  deriving DecidableEq

/-- A raw frame as returned by `camera.frame()`, with the three possible
decoder invocations abstracted as oracles (`none` = that decoder errors on
this buffer). -/
structure CameraBuffer where
  source_format : FrameFormat
  decodeRGBA : Option (List ℕ)
  decodeRGB : Option (List ℕ)
  decodeYUYV : Option (List ℕ)

/-- `conversions.rs::capture_frame`.  The outer `Option` models a panic
escaping from `rgb_to_rgba` (out-of-bounds chunk index); the `Except` is
the function's `anyhow::Result`. -/
def capture_frame (frame : Option CameraBuffer) : Option (Except CaptureError (List ℕ)) :=
  match frame with
  | none => some (.error .captureFailed)
  | some buf =>
    match buf.source_format with
    | .MJPEG =>
      match buf.decodeRGBA with
      | some d => some (.ok d)
      | none => some (.error .decodeMJPEGFailed)
    | .YUYV =>
      match buf.decodeYUYV with
      | some d => (rgb_to_rgba d).map .ok
      | none => some (.error .decodeYUYVFailed)
    | .NV12 =>
      match buf.decodeRGBA with
      | some d => some (.ok d)
      | none => some (.error .decodeNV12Failed)
    | fmt =>
      match buf.decodeRGB with
      | some d => (rgb_to_rgba d).map .ok
      | none =>
        match buf.decodeRGBA with
        | some d => some (.ok d)
        | none => some (.error (.frameDecodeError fmt))

/-- Claim C2: `capture_frame` dispatches on the declared source format.
MJPEG and NV12 frames are decoded directly to RGBA; YUYV frames are decoded
to 3-channel RGB and expanded with a constant alpha byte 255 per pixel; for
any other format the RGB path is attempted first (its success decides the
result regardless of the RGBA oracle, and its output is expanded), then the
RGBA path, and if both fail the error names the source format. -/
theorem capture_frame_dispatch (buf : CameraBuffer) :
    ((buf.source_format = .MJPEG ∨ buf.source_format = .NV12) →
       ∀ d, buf.decodeRGBA = some d → capture_frame (some buf) = some (.ok d))
    ∧ (buf.source_format = .YUYV →
       ∀ d n, buf.decodeYUYV = some d → d.length = 3 * n →
         ∃ out, capture_frame (some buf) = some (.ok out) ∧ out.length = 4 * n ∧
           ∀ i, i < n →
             out.get? (4 * i) = d.get? (3 * i) ∧
             out.get? (4 * i + 1) = d.get? (3 * i + 1) ∧
             out.get? (4 * i + 2) = d.get? (3 * i + 2) ∧
             out.get? (4 * i + 3) = some 255)
    ∧ (buf.source_format ≠ .MJPEG → buf.source_format ≠ .YUYV → buf.source_format ≠ .NV12 →
       (∀ d n, buf.decodeRGB = some d → d.length = 3 * n →
         ∃ out, capture_frame (some buf) = some (.ok out) ∧ out.length = 4 * n ∧
           ∀ i, i < n →
             out.get? (4 * i) = d.get? (3 * i) ∧
             out.get? (4 * i + 1) = d.get? (3 * i + 1) ∧
             out.get? (4 * i + 2) = d.get? (3 * i + 2) ∧
             out.get? (4 * i + 3) = some 255)
       ∧ (buf.decodeRGB = none → ∀ d, buf.decodeRGBA = some d →
           capture_frame (some buf) = some (.ok d))
       ∧ (buf.decodeRGB = none → buf.decodeRGBA = none →
           capture_frame (some buf) =
             some (.error (.frameDecodeError buf.source_format)))) := by
  obtain ⟨fmt, rgba, rgb, yuyv⟩ := buf
  refine ⟨?_, ?_, ?_⟩
  · rintro (h | h) d hd <;> subst h <;> subst hd <;> rfl
  · rintro h d n hd hlen
    subst h; subst hd
    obtain ⟨out, hout, hlenout, hidx⟩ := rgb_to_rgba_ok d n hlen
    exact ⟨out, by simp [capture_frame, hout], hlenout, hidx⟩
  · intro h1 h2 h3
    refine ⟨?_, ?_, ?_⟩
    · rintro d n hd hlen
      subst hd
      obtain ⟨out, hout, hlenout, hidx⟩ := rgb_to_rgba_ok d n hlen
      refine ⟨out, ?_, hlenout, hidx⟩
      cases fmt <;> simp_all [capture_frame, hout]
    · rintro hrgb d hd
      subst hrgb; subst hd
      cases fmt <;> simp_all [capture_frame]
    · rintro hrgb hrgba
      subst hrgb; subst hrgba
      cases fmt <;> simp_all [capture_frame]

def bufYuyvExample : CameraBuffer :=
  { source_format := .YUYV, decodeRGBA := none, decodeRGB := none,
    decodeYUYV := some [9, 8, 7, 6, 5, 4] }

theorem capture_frame_dispatch_witness :
    ∃ out, capture_frame (some bufYuyvExample) = some (.ok out) ∧ out.length = 4 * 2 ∧
      ∀ i, i < 2 →
        out.get? (4 * i) = ([9, 8, 7, 6, 5, 4] : List ℕ).get? (3 * i) ∧
        out.get? (4 * i + 1) = ([9, 8, 7, 6, 5, 4] : List ℕ).get? (3 * i + 1) ∧
        out.get? (4 * i + 2) = ([9, 8, 7, 6, 5, 4] : List ℕ).get? (3 * i + 2) ∧
        out.get? (4 * i + 3) = some 255 :=
  (capture_frame_dispatch bufYuyvExample).2.1 rfl [9, 8, 7, 6, 5, 4] 2 rfl rfl

/-! ## Frame-time ring buffer and FPS estimate (`nokhwa.rs`)

`FrameTimeBuffer` holds `times: [f64; 60]`, a write cursor `index` and a
fill counter `count`.  The 60-slot array is modelled as a total function
`ℕ → ℚ`; the source only ever writes and reads indices `< 60`. -/

structure FrameTimeBuffer where
  times : ℕ → ℚ
  index : ℕ
  count : ℕ

def FrameTimeBuffer.new : FrameTimeBuffer :=
  { times := fun _ => 0, index := 0, count := 0 }

/-- `FrameTimeBuffer::push`: write at `index`, advance `index` modulo 60,
increment `count` while it is below 60. -/
def FrameTimeBuffer.push (b : FrameTimeBuffer) (t : ℚ) : FrameTimeBuffer :=
  { times := fun j => if j = b.index then t else b.times j,
    index := (b.index + 1) % 60,
    count := if b.count < 60 then b.count + 1 else b.count }

/-- `FrameTimeBuffer::clear`: reset `index` and `count` (the array is
kept). -/
def FrameTimeBuffer.clear (b : FrameTimeBuffer) : FrameTimeBuffer :=
  { b with index := 0, count := 0 }

/-- `FrameTimeBuffer::ema`: 0 on an empty buffer, otherwise the
exponentially weighted fold over `times[0]`, `times[1]`, …,
`times[count-1]` — storage-slot order. -/
def FrameTimeBuffer.ema (b : FrameTimeBuffer) (alpha : ℚ) : ℚ :=
  if b.count = 0 then 0
  else
    (List.range' 1 (b.count - 1)).foldl
      (fun e i => alpha * b.times i + (1 - alpha) * e) (b.times 0)

/-- Pushing a whole list of durations, oldest first. -/
def pushList (b : FrameTimeBuffer) (l : List ℚ) : FrameTimeBuffer :=
  l.foldl FrameTimeBuffer.push b

/-- The stored durations in storage-slot order `times[0] … times[count-1]`
(the order `FrameTimeBuffer::ema` actually visits). -/
def slotList (b : FrameTimeBuffer) : List ℚ :=
  (List.range b.count).map b.times

/-- Modelled from the spec: "compute the exponential moving average
(smoothing factor α) of the stored durations in chronological order" —
the EMA of a list of durations given oldest first. -/
def emaOfList (alpha : ℚ) : List ℚ → ℚ
  | [] => 0
  | x :: xs => xs.foldl (fun e t => alpha * t + (1 - alpha) * e) x

/-- Modelled from the spec: the stored durations in chronological order,
oldest first.  With `count` stored entries and next write position
`index`, the oldest entry sits `count` slots behind `index` in the
60-slot ring. -/
def chronList (b : FrameTimeBuffer) : List ℚ :=
  (List.range b.count).map (fun k => b.times ((b.index + 60 - b.count + k) % 60))

/-- The initial cached FPS value of the streaming loop
(`let mut cached_fps = 60.0`). -/
def initial_cached_fps : ℚ := 60

/-- The FPS-update step of `nokhwa.rs::create_camera_stream`: when at
least 200 ms have elapsed since the last update, recompute via
`ema(0.3)` and take `1/avg` only when `avg > 0`; otherwise keep the
cached value. -/
def fpsRecompute (ft : FrameTimeBuffer) (cached : ℚ) (elapsed_ms : ℕ) : ℚ :=
  if 200 ≤ elapsed_ms then
    if 0 < ft.ema (3/10) then 1 / ft.ema (3/10) else cached
  else cached

/-! ## PID pacing controller (`nokhwa.rs::PidController`) -/

structure PidController where
  last_error : ℚ
  integral : ℚ
  kp : ℚ
  ki : ℚ
  kd : ℚ

def PidController.new : PidController :=
  { last_error := 0, integral := 0, kp := 7/10, ki := 15/100, kd := 1/10 }

/-- Rust `x.clamp(lo, hi)`. -/
def clampQ (x lo hi : ℚ) : ℚ := max lo (min x hi)

/-- `PidController::compute` (durations in seconds): returns the updated
controller state and the requested sleep `max(output, 0)`. -/
def PidController.compute (p : PidController) (target actual : ℚ) :
    PidController × ℚ :=
  let error := target - actual
  let integral := clampQ (p.integral + error) (-10) 10
  let derivative := error - p.last_error
  let output := p.kp * error + p.ki * integral + p.kd * derivative
  ({ p with last_error := error, integral := integral }, max output 0)

/-! ## Streaming-loop iteration (`nokhwa.rs::create_camera_stream`)

One pass of the worker loop, with the clock abstracted: `processing` is
the measured processing time of this frame (seconds), `elapsed_ms` the
wall-clock milliseconds since the last FPS update, `abortFlag` the value
the per-iteration abort check reads.  The capture+decode call is an
oracle `Except Unit (List ℕ)`. -/

def target_frame_time : ℚ := 16/1000

/-- What the consumer callback receives in one iteration. -/
inductive CallbackEvent
  | frame (f : List ℕ) (fps : ℚ)
  | failure
  deriving DecidableEq

structure LoopState where
  frame_times : FrameTimeBuffer
  cached_fps : ℚ
  pid : PidController

structure IterOutput where
  state : LoopState
  event : CallbackEvent
  continues : Bool
  sleep : Option ℚ

/-- One iteration of the loop body: push the processing time on success /
clear the history on failure; maybe recompute the cached FPS; deliver the
callback event; break if the abort flag is set; otherwise throttle with
the PID controller only when `processing < target_frame_time`. -/
def loopIter (st : LoopState) (capture : Except Unit (List ℕ))
    (processing : ℚ) (elapsed_ms : ℕ) (abortFlag : Bool) : IterOutput :=
  let ft := match capture with
    | .ok _ => st.frame_times.push processing
    | .error _ => st.frame_times.clear
  let fps := fpsRecompute ft st.cached_fps elapsed_ms
  let ev := match capture with
    | .ok f => CallbackEvent.frame f fps
    | .error _ => CallbackEvent.failure
  if abortFlag then ⟨⟨ft, fps, st.pid⟩, ev, false, none⟩
  else if processing < target_frame_time then
    let r := st.pid.compute target_frame_time processing
    ⟨⟨ft, fps, r.1⟩, ev, true, some r.2⟩
  else ⟨⟨ft, fps, st.pid⟩, ev, true, none⟩

/-! ### Ring-buffer lemmas -/

lemma pushList_cons (b : FrameTimeBuffer) (x : ℚ) (t : List ℚ) :
    pushList b (x :: t) = pushList (b.push x) t := rfl

lemma pushList_append (b : FrameTimeBuffer) (l1 l2 : List ℚ) :
    pushList b (l1 ++ l2) = pushList (pushList b l1) l2 := by
  simp [pushList, List.foldl_append]

lemma push_count (b : FrameTimeBuffer) (x : ℚ) :
    (b.push x).count = if b.count < 60 then b.count + 1 else b.count := rfl

lemma pushList_count (l : List ℚ) : ∀ b : FrameTimeBuffer, b.count ≤ 60 →
    (pushList b l).count = min (b.count + l.length) 60 := by
  induction l with
  | nil =>
      intro b hb
      simp only [pushList, List.foldl_nil, List.length_nil, Nat.add_zero]
      omega
  | cons x t ih =>
      intro b hb
      rw [pushList_cons]
      have h2 : (b.push x).count ≤ 60 := by rw [push_count]; split <;> omega
      rw [ih _ h2, push_count]
      simp only [List.length_cons]
      by_cases hlt : b.count < 60 <;> simp only [hlt, if_true, if_false] <;> omega

lemma pushList_new_spec (l : List ℚ) : l.length ≤ 60 →
    (pushList FrameTimeBuffer.new l).count = l.length ∧
    (pushList FrameTimeBuffer.new l).index = l.length % 60 ∧
    ∀ j, j < l.length → (pushList FrameTimeBuffer.new l).times j = l.getD j 0 := by
  induction l using List.reverseRecOn with
  | nil => exact fun _ => ⟨rfl, rfl, fun j hj => absurd hj (by simp)⟩
  | append_singleton t x ih =>
      intro hl
      have hlen : (t ++ [x]).length = t.length + 1 := by simp
      have htlt : t.length < 60 := by rw [hlen] at hl; omega
      obtain ⟨hcount, hindex, htimes⟩ := ih (Nat.le_of_lt htlt)
      have hidx' : (pushList FrameTimeBuffer.new t).index = t.length := by
        rw [hindex, Nat.mod_eq_of_lt htlt]
      rw [pushList_append]
      refine ⟨?_, ?_, ?_⟩
      · show (FrameTimeBuffer.push _ x).count = _
        rw [push_count, hcount, if_pos htlt, hlen]
      · show ((pushList FrameTimeBuffer.new t).index + 1) % 60 = _
        rw [hidx', hlen]
      · intro j hj
        rw [hlen] at hj
        show (if j = (pushList FrameTimeBuffer.new t).index then x
              else (pushList FrameTimeBuffer.new t).times j) = _
        rw [hidx']
        by_cases hje : j = t.length
        · subst hje
          rw [if_pos rfl, List.getD_eq_getElem?_getD,
            List.getElem?_append_right (Nat.le_refl _)]
          simp
        · have hjlt : j < t.length := by omega
          rw [if_neg hje, htimes j hjlt, List.getD_eq_getElem?_getD,
            List.getD_eq_getElem?_getD, List.getElem?_append_left hjlt]

lemma ema_eq_emaOfList_slotList (b : FrameTimeBuffer) (alpha : ℚ) :
    b.ema alpha = emaOfList alpha (slotList b) := by
  unfold FrameTimeBuffer.ema slotList
  cases hc : b.count with
  | zero => simp [emaOfList]
  | succ n =>
      rw [if_neg (Nat.succ_ne_zero n)]
      have hr : List.range (n + 1) = 0 :: List.range' 1 n := by
        rw [List.range_eq_range', List.range'_succ]
      rw [hr]
      simp only [List.map_cons, emaOfList, List.foldl_map, Nat.add_sub_cancel]

lemma range_map_getD (l : List ℚ) :
    (List.range l.length).map (fun k => l.getD k 0) = l := by
  induction l with
  | nil => rfl
  | cons x t ih =>
      show (List.range (t.length + 1)).map _ = _
      rw [List.range_eq_range', List.range'_succ, List.map_cons]
      have : List.range' 1 t.length = (List.range t.length).map (· + 1) := by
        rw [List.range'_eq_map_range]
        simp [Nat.add_comm]
      rw [this, List.map_map]
      simp only [Function.comp, List.getD_cons_zero, List.getD_cons_succ]
      exact congrArg (x :: ·) ih

lemma slotList_pushList_new (l : List ℚ) (hl : l.length ≤ 60) :
    slotList (pushList FrameTimeBuffer.new l) = l := by
  obtain ⟨hcount, _, htimes⟩ := pushList_new_spec l hl
  unfold slotList
  rw [hcount]
  calc (List.range l.length).map (pushList FrameTimeBuffer.new l).times
      = (List.range l.length).map (fun k => l.getD k 0) := by
        apply List.map_congr_left
        intro k hk
        exact htimes k (List.mem_range.mp hk)
    _ = l := range_map_getD l

lemma chronList_pushList_new (l : List ℚ) (hl : l.length ≤ 60) :
    chronList (pushList FrameTimeBuffer.new l) = l := by
  obtain ⟨hcount, hindex, htimes⟩ := pushList_new_spec l hl
  unfold chronList
  rw [hcount, hindex]
  calc (List.range l.length).map
        (fun k => (pushList FrameTimeBuffer.new l).times ((l.length % 60 + 60 - l.length + k) % 60))
      = (List.range l.length).map (fun k => l.getD k 0) := by
        apply List.map_congr_left
        intro k hk
        have hk' : k < l.length := List.mem_range.mp hk
        have harg : (l.length % 60 + 60 - l.length + k) % 60 = k := by omega
        rw [harg]
        exact htimes k hk'
    _ = l := range_map_getD l

lemma clear_ema (b : FrameTimeBuffer) (alpha : ℚ) : b.clear.ema alpha = 0 := by
  unfold FrameTimeBuffer.ema FrameTimeBuffer.clear
  rfl

/-! ### Claim C7 — ring-buffer fill and overwrite behaviour -/

/-- Sample durations for witnesses: the `n`-th pushed duration is `n`
seconds. -/
def natSeq : ℕ → ℚ := fun n => n

/-- Claim C7: after pushing `k ≤ 60` values, the reported count equals
`k`; the very first pushed value lands in slot 0; after pushing 61 values
the count remains 60 and slot 0 has been overwritten by the 61st value;
the count never exceeds 60 under any sequence of pushes. -/
theorem frame_time_buffer_ring (v : ℕ → ℚ) (k : ℕ) (hk : k ≤ 60) :
    (pushList FrameTimeBuffer.new ((List.range k).map v)).count = k
  ∧ (pushList FrameTimeBuffer.new [v 0]).times 0 = v 0
  ∧ (pushList FrameTimeBuffer.new ((List.range 61).map v)).count = 60
  ∧ (pushList FrameTimeBuffer.new ((List.range 61).map v)).times 0 = v 60
  ∧ ∀ l : List ℚ, (pushList FrameTimeBuffer.new l).count ≤ 60 := by
  refine ⟨?_, rfl, ?_, ?_, ?_⟩
  · have h := (pushList_new_spec ((List.range k).map v) (by simpa using hk)).1
    simpa using h
  · have h := pushList_count ((List.range 61).map v) FrameTimeBuffer.new (by simp [FrameTimeBuffer.new])
    have hlen : ((List.range 61).map v).length = 61 := by
      rw [List.length_map, List.length_range]
    rw [h, hlen]
    show min (0 + 61) 60 = 60
    omega
  · have hsplit : (List.range 61).map v = (List.range 60).map v ++ [v 60] := by
      rw [List.range_succ, List.map_append]
      rfl
    have hidx : (pushList FrameTimeBuffer.new ((List.range 60).map v)).index = 0 := by
      have h := (pushList_new_spec ((List.range 60).map v) (by simp)).2.1
      simpa using h
    rw [hsplit, pushList_append]
    have hpush : ∀ (b : FrameTimeBuffer) (x : ℚ),
        (pushList b [x]).times 0 = if 0 = b.index then x else b.times 0 :=
      fun b x => rfl
    rw [hpush, hidx]
    rfl
  · intro l
    have h := pushList_count l FrameTimeBuffer.new (by simp [FrameTimeBuffer.new])
    rw [h]
    omega

theorem frame_time_buffer_ring_witness :
    (3 : ℕ) ≤ 60
  ∧ ((pushList FrameTimeBuffer.new ((List.range 3).map natSeq)).count = 3
    ∧ (pushList FrameTimeBuffer.new [natSeq 0]).times 0 = natSeq 0
    ∧ (pushList FrameTimeBuffer.new ((List.range 61).map natSeq)).count = 60
    ∧ (pushList FrameTimeBuffer.new ((List.range 61).map natSeq)).times 0 = natSeq 60
    ∧ ∀ l : List ℚ, (pushList FrameTimeBuffer.new l).count ≤ 60) :=
  ⟨by omega, frame_time_buffer_ring natSeq 3 (by omega)⟩

/-! ### Claim C5 — FPS recomputation policy

The code's `ema` walks the stored durations in storage-slot order
`times[0] … times[count-1]`.  Until the ring wraps this is the
chronological order, but once more than 60 durations have been pushed the
write cursor has lapped slot 0 and the two orders differ, so the claim's
"chronological order (oldest first)" reading is refuted below on a buffer
that has wrapped once. -/

/-- 61 pushed durations: sixty frames of 0 s followed by one frame of
1 s.  After these pushes slot 0 holds the newest duration. -/
def wrapSeq : ℕ → ℚ := fun k => if k = 60 then 1 else 0

def wrappedBuffer : FrameTimeBuffer :=
  pushList FrameTimeBuffer.new ((List.range 61).map wrapSeq)

/-- An exponentially weighted fold over indices whose durations are all
zero just rescales the accumulator by `(1-α)` per step. -/
lemma zero_fold (alpha : ℚ) (f : ℕ → ℚ) :
    ∀ (n s : ℕ) (e : ℚ), (∀ i, s ≤ i → i < s + n → f i = 0) →
      (List.range' s n).foldl (fun e i => alpha * f i + (1 - alpha) * e) e
        = (1 - alpha) ^ n * e := by
  intro n
  induction n with
  | zero => intro s e _; simp
  | succ m ih =>
      intro s e hz
      rw [List.range'_succ, List.foldl_cons, hz s (Nat.le_refl s) (by omega),
        ih (s + 1) _ (fun i hi1 hi2 => hz i (by omega) (by omega))]
      ring

lemma wrapped_state :
    wrappedBuffer.count = 60 ∧ wrappedBuffer.index = 1 ∧
    wrappedBuffer.times 0 = 1 ∧
    ∀ j, 1 ≤ j → j < 60 → wrappedBuffer.times j = 0 := by
  have hsplit : (List.range 61).map wrapSeq = (List.range 60).map wrapSeq ++ [(1 : ℚ)] := by
    rw [List.range_succ, List.map_append]
    rfl
  have hlen : ((List.range 60).map wrapSeq).length = 60 := by simp
  obtain ⟨hcount, hindex, htimes⟩ :=
    pushList_new_spec ((List.range 60).map wrapSeq) (le_of_eq hlen)
  have hidx0 : (pushList FrameTimeBuffer.new ((List.range 60).map wrapSeq)).index = 0 := by
    rw [hindex, hlen]
  have htz : ∀ j, j < 60 →
      (pushList FrameTimeBuffer.new ((List.range 60).map wrapSeq)).times j = 0 := by
    intro j hj
    rw [htimes j (by rw [hlen]; exact hj), List.getD_eq_getElem?_getD,
      List.getElem?_map, List.getElem?_range hj]
    show wrapSeq j = 0
    unfold wrapSeq
    rw [if_neg (by omega)]
  have hw : wrappedBuffer
      = (pushList FrameTimeBuffer.new ((List.range 60).map wrapSeq)).push 1 := by
    unfold wrappedBuffer
    rw [hsplit, pushList_append]
    rfl
  refine ⟨?_, ?_, ?_, ?_⟩
  · rw [hw, push_count, hcount, hlen]
    rfl
  · rw [hw]
    show (_ + 1) % 60 = 1
    rw [hidx0]
  · rw [hw]
    simp [FrameTimeBuffer.push, hidx0]
  · intro j hj1 hj60
    rw [hw]
    simp only [FrameTimeBuffer.push, hidx0]
    rw [if_neg (by omega)]
    exact htz j hj60

lemma wrapped_ema : wrappedBuffer.ema (3/10) = (7/10) ^ 59 := by
  obtain ⟨hcount, _, ht0, htpos⟩ := wrapped_state
  unfold FrameTimeBuffer.ema
  rw [hcount, if_neg (by omega)]
  show (List.range' 1 (60 - 1)).foldl _ _ = _
  have h := zero_fold (3/10) wrappedBuffer.times (60 - 1) 1 (wrappedBuffer.times 0)
    (fun i hi1 hi2 => htpos i hi1 (by omega))
  rw [h, ht0]
  norm_num

lemma emaOfList_cons (alpha x : ℚ) (xs : List ℚ) :
    emaOfList alpha (x :: xs) = xs.foldl (fun e t => alpha * t + (1 - alpha) * e) x := rfl

lemma wrapped_chron_ema : emaOfList (3/10) (chronList wrappedBuffer) = 3/10 := by
  obtain ⟨hcount, hindex, ht0, htpos⟩ := wrapped_state
  unfold chronList
  rw [hcount, hindex]
  have hr : List.range 60 = 0 :: List.range' 1 59 := by
    rw [List.range_eq_range']
    rfl
  rw [hr, List.map_cons, emaOfList_cons, List.foldl_map]
  show List.foldl
      (fun e k => 3/10 * wrappedBuffer.times ((1 + 60 - 60 + k) % 60) + (1 - 3/10) * e)
      (wrappedBuffer.times ((1 + 60 - 60 + 0) % 60)) (List.range' 1 59) = 3/10
  have harg0 : (1 + 60 - 60 + 0) % 60 = 1 := by omega
  rw [harg0, htpos 1 (by omega) (by omega)]
  have hsplit : List.range' 1 59 = List.range' 1 58 ++ [59] := by
    have h := List.range'_1_concat 1 58
    simpa using h
  rw [hsplit, List.foldl_append]
  have h58 := zero_fold (3/10) (fun k => wrappedBuffer.times ((1 + 60 - 60 + k) % 60)) 58 1 0
    (fun i hi1 hi2 => by
      show wrappedBuffer.times ((1 + 60 - 60 + i) % 60) = 0
      have harg : (1 + 60 - 60 + i) % 60 = 1 + i := by omega
      rw [harg]
      exact htpos (1 + i) (by omega) (by omega))
  simp only [] at h58
  rw [h58]
  show (3 : ℚ)/10 * wrappedBuffer.times ((1 + 60 - 60 + 59) % 60)
      + (1 - 3/10) * ((1 - 3/10) ^ 58 * 0) = 3/10
  have harg : (1 + 60 - 60 + 59) % 60 = 0 := by omega
  rw [harg, ht0]
  ring

/-- Claim C5 counterexample: on a buffer that has wrapped once (61 pushed
durations: sixty frames of 0 s, then one of 1 s), both the code's EMA and
the chronological EMA are strictly positive — so the claimed
`fps = 1/average` branch applies — yet the FPS value the loop caches after
a due recomputation (elapsed 200 ms) differs from `1 /` the EMA of the
stored durations in chronological order: the code folds in storage-slot
order, yielding `(7/10)^59` instead of `3/10`. -/
theorem fps_chronological_counterexample :
    0 < emaOfList (3/10) (chronList wrappedBuffer)
  ∧ 0 < wrappedBuffer.ema (3/10)
  ∧ fpsRecompute wrappedBuffer 60 200 ≠ 1 / emaOfList (3/10) (chronList wrappedBuffer) := by
  have hpow : (0 : ℚ) < (7/10) ^ 59 := pow_pos (by norm_num) 59
  refine ⟨by rw [wrapped_chron_ema]; norm_num, by rw [wrapped_ema]; exact hpow, ?_⟩
  rw [wrapped_chron_ema]
  unfold fpsRecompute
  rw [if_pos (by omega), wrapped_ema, if_pos hpow]
  intro hcontra
  field_simp at hcontra
  norm_num at hcontra

/-- Claim C5 (amended): the loop recomputes the cached FPS estimate
(initially 60.0) only when at least 200 ms have elapsed since the previous
recomputation, otherwise it reuses the cached value; when recomputing it
takes the exponential moving average with smoothing factor 0.3 of the
stored frame durations in storage-slot order `times[0] … times[count-1]` —
an order that agrees with chronological order (oldest first) as long as at
most 60 durations have been pushed since creation or the last clear — and
sets `fps = 1/average` only when that average is strictly positive,
otherwise the previous cached value is retained. -/
theorem fps_recompute_policy (ft : FrameTimeBuffer) (cached : ℚ) (e : ℕ)
    (l : List ℚ) (hl : l.length ≤ 60) :
    initial_cached_fps = 60
  ∧ (e < 200 → fpsRecompute ft cached e = cached)
  ∧ (200 ≤ e → ft.ema (3/10) ≤ 0 → fpsRecompute ft cached e = cached)
  ∧ (200 ≤ e → 0 < ft.ema (3/10) → fpsRecompute ft cached e = 1 / ft.ema (3/10))
  ∧ ft.ema (3/10) = emaOfList (3/10) (slotList ft)
  ∧ slotList (pushList FrameTimeBuffer.new l) = l
  ∧ chronList (pushList FrameTimeBuffer.new l) = l := by
  refine ⟨rfl, ?_, ?_, ?_, ema_eq_emaOfList_slotList ft _,
    slotList_pushList_new l hl, chronList_pushList_new l hl⟩
  · intro he
    unfold fpsRecompute
    rw [if_neg (by omega)]
  · intro he hle
    unfold fpsRecompute
    rw [if_pos he, if_neg (not_lt.mpr hle)]
  · intro he hlt
    unfold fpsRecompute
    rw [if_pos he, if_pos hlt]

theorem fps_recompute_policy_witness :
    ([(1 : ℚ)/100] : List ℚ).length ≤ 60
  ∧ (initial_cached_fps = 60
    ∧ (100 < 200 → fpsRecompute FrameTimeBuffer.new 5 100 = 5)
    ∧ (200 ≤ 100 → FrameTimeBuffer.new.ema (3/10) ≤ 0 →
        fpsRecompute FrameTimeBuffer.new 5 100 = 5)
    ∧ (200 ≤ 100 → 0 < FrameTimeBuffer.new.ema (3/10) →
        fpsRecompute FrameTimeBuffer.new 5 100 = 1 / FrameTimeBuffer.new.ema (3/10))
    ∧ FrameTimeBuffer.new.ema (3/10) = emaOfList (3/10) (slotList FrameTimeBuffer.new)
    ∧ slotList (pushList FrameTimeBuffer.new [(1 : ℚ)/100]) = [(1 : ℚ)/100]
    ∧ chronList (pushList FrameTimeBuffer.new [(1 : ℚ)/100]) = [(1 : ℚ)/100]) :=
  ⟨by simp, fps_recompute_policy FrameTimeBuffer.new 5 100 [(1 : ℚ)/100] (by simp)⟩

/-! ### Claim C6 — PID pacing step -/

/-- Claim C6: each pacing step computes `error = target − elapsed`
(seconds), adds the error to the integral and then clamps the integral to
[-10, 10], computes `derivative = error − last_error`, outputs
`0.7·error + 0.15·integral + 0.1·derivative` and requests a sleep of
`max(output, 0)` seconds; the loop applies a sleep only when the frame's
own processing time was strictly below the 16 ms target interval. -/
theorem pid_pacing (p : PidController) (target actual : ℚ)
    (hkp : p.kp = 7/10) (hki : p.ki = 15/100) (hkd : p.kd = 1/10) :
    (p.compute target actual =
      ({ p with last_error := target - actual,
                integral := max (-10) (min (p.integral + (target - actual)) 10) },
       max ((7/10) * (target - actual)
            + (15/100) * max (-10) (min (p.integral + (target - actual)) 10)
            + (1/10) * ((target - actual) - p.last_error)) 0))
  ∧ PidController.new.kp = 7/10 ∧ PidController.new.ki = 15/100
  ∧ PidController.new.kd = 1/10
  ∧ target_frame_time = 16/1000
  ∧ (∀ (st : LoopState) (cap : Except Unit (List ℕ)) (e : ℕ) (ab : Bool) (proc : ℚ),
      (loopIter st cap proc e ab).sleep ≠ none → proc < target_frame_time)
  ∧ (∀ (st : LoopState) (cap : Except Unit (List ℕ)) (e : ℕ) (proc : ℚ),
      (loopIter st cap proc e false).sleep =
        if proc < target_frame_time
        then some (st.pid.compute target_frame_time proc).2 else none) := by
  refine ⟨?_, rfl, rfl, rfl, rfl, ?_, ?_⟩
  · simp [PidController.compute, clampQ, hkp, hki, hkd]
  · intro st cap e ab proc h
    by_cases hab : ab
    · simp [loopIter, hab] at h
    · by_cases hproc : proc < target_frame_time
      · exact hproc
      · simp [loopIter, hab, hproc] at h
  · intro st cap e proc
    by_cases hproc : proc < target_frame_time
    · simp [loopIter, hproc]
    · simp [loopIter, hproc]

theorem pid_pacing_witness :
    PidController.new.kp = 7/10 ∧ PidController.new.ki = 15/100 ∧
    PidController.new.kd = 1/10 ∧
    (PidController.new.compute (16/1000) (1/100) =
      ({ PidController.new with
          last_error := (16 : ℚ)/1000 - 1/100,
          integral := max (-10) (min (PidController.new.integral + ((16 : ℚ)/1000 - 1/100)) 10) },
       max ((7/10) * ((16 : ℚ)/1000 - 1/100)
            + (15/100) * max (-10) (min (PidController.new.integral + ((16 : ℚ)/1000 - 1/100)) 10)
            + (1/10) * (((16 : ℚ)/1000 - 1/100) - PidController.new.last_error)) 0)) :=
  ⟨rfl, rfl, rfl, (pid_pacing PidController.new (16/1000) (1/100) rfl rfl rfl).1⟩

/-! ### Claim C8 — failure handling inside the streaming loop -/

/-- Claim C8: when capture or decode fails in an iteration, the
frame-time history is cleared (count drops to 0, no duration is
recorded), the cached FPS value is left unchanged, the failure is
delivered to the consumer callback, and the iteration continues exactly
when the abort flag is unset; for every capture outcome, only the abort
flag stops the loop. -/
theorem loop_failure_handling (st : LoopState) (proc : ℚ) (e : ℕ) (ab : Bool) :
    (loopIter st (.error ()) proc e ab).state.frame_times = st.frame_times.clear
  ∧ (loopIter st (.error ()) proc e ab).state.frame_times.count = 0
  ∧ (loopIter st (.error ()) proc e ab).state.cached_fps = st.cached_fps
  ∧ (loopIter st (.error ()) proc e ab).event = .failure
  ∧ ∀ cap : Except Unit (List ℕ), (loopIter st cap proc e ab).continues = !ab := by
  have hfps : fpsRecompute st.frame_times.clear st.cached_fps e = st.cached_fps := by
    unfold fpsRecompute
    rw [clear_ema]
    simp
  have hclear : (loopIter st (.error ()) proc e ab).state.frame_times
      = st.frame_times.clear := by
    unfold loopIter
    by_cases hab : ab <;> by_cases hproc : proc < target_frame_time <;>
      simp [hab, hproc]
  refine ⟨hclear, by rw [hclear]; rfl, ?_, ?_, ?_⟩
  · unfold loopIter
    by_cases hab : ab <;> by_cases hproc : proc < target_frame_time <;>
      simp [hab, hproc, hfps]
  · unfold loopIter
    by_cases hab : ab <;> by_cases hproc : proc < target_frame_time <;>
      simp [hab, hproc]
  · intro cap
    unfold loopIter
    by_cases hab : ab <;> by_cases hproc : proc < target_frame_time <;>
      simp [hab, hproc]

/-! ## Standalone buffer-conversion utilities (`lib.rs::buf_mjpeg_to_rgb`,
`lib.rs::buf_nv12_to_rgb`, `lib.rs::buf_yuyv422_to_rgb`)

Each N-API wrapper allocates a `width*height*3` destination buffer and
delegates to the corresponding `nokhwa::utils::buf_*_to_rgb`, mapping a
returned error into an N-API error.  The bodies of the nokhwa utilities
themselves are not part of this repository's sources, so they are
modelled from the spec, with the actual decoding routine abstracted as an
oracle. -/

inductive BufError
  | emptyInput
  | decodeFault
  deriving DecidableEq

/-- Modelled from the spec: the body of `nokhwa::utils::buf_mjpeg_to_rgb`
(code not under this repository's `src/`): "An empty source buffer is
rejected immediately as an input-validation error, not passed to the
decoder"; any internal fault of the decoding routine is caught and
reported as an ordinary decode error.  The decoding routine is the oracle
`dec` (`none` = fault or malformed data). -/
def nokhwa_buf_mjpeg_to_rgb (dec : List ℕ → Option (List ℕ))
    (src _dest : List ℕ) : Except BufError (List ℕ) :=
  if src = [] then .error .emptyInput
  else
    match dec src with
    | some out => .ok out
    | none => .error .decodeFault

/-- Modelled from the spec: the body of `nokhwa::utils::buf_nv12_to_rgb`
(code not under this repository's `src/`), as for
`nokhwa_buf_mjpeg_to_rgb`; its decoding routine also receives the
resolution. -/
def nokhwa_buf_nv12_to_rgb (dec : ℕ → ℕ → List ℕ → Option (List ℕ))
    (width height : ℕ) (src _dest : List ℕ) : Except BufError (List ℕ) :=
  if src = [] then .error .emptyInput
  else
    match dec width height src with
    | some out => .ok out
    | none => .error .decodeFault

/-- Modelled from the spec: the body of `nokhwa::utils::buf_yuyv422_to_rgb`
(code not under this repository's `src/`), as for
`nokhwa_buf_mjpeg_to_rgb`. -/
def nokhwa_buf_yuyv422_to_rgb (dec : List ℕ → Option (List ℕ))
    (src _dest : List ℕ) : Except BufError (List ℕ) :=
  if src = [] then .error .emptyInput
  else
    match dec src with
    | some out => .ok out
    | none => .error .decodeFault

/-- `lib.rs::buf_mjpeg_to_rgb`: allocate `width*height*3` zeroed bytes and
delegate. -/
def buf_mjpeg_to_rgb (dec : List ℕ → Option (List ℕ)) (width height : ℕ)
    (mjpeg : List ℕ) : Except BufError (List ℕ) :=
  nokhwa_buf_mjpeg_to_rgb dec mjpeg (List.replicate (width * height * 3) 0)

/-- `lib.rs::buf_nv12_to_rgb`. -/
def buf_nv12_to_rgb (dec : ℕ → ℕ → List ℕ → Option (List ℕ))
    (width height : ℕ) (nv12 : List ℕ) : Except BufError (List ℕ) :=
  nokhwa_buf_nv12_to_rgb dec width height nv12 (List.replicate (width * height * 3) 0)

/-- `lib.rs::buf_yuyv422_to_rgb`. -/
def buf_yuyv422_to_rgb (dec : List ℕ → Option (List ℕ)) (width height : ℕ)
    (yuyv : List ℕ) : Except BufError (List ℕ) :=
  nokhwa_buf_yuyv422_to_rgb dec yuyv (List.replicate (width * height * 3) 0)

/-- Claim C9: each standalone buffer-conversion utility (MJPEG→RGB,
NV12→RGB, packed-YUV→RGB) rejects an empty source buffer immediately as an
input-validation error, returning before the underlying decoder is
invoked: on an empty source the result does not depend on the decoder
oracle at all. -/
theorem buf_conversions_reject_empty
    (decM : List ℕ → Option (List ℕ)) (decN : ℕ → ℕ → List ℕ → Option (List ℕ))
    (decY : List ℕ → Option (List ℕ)) (width height : ℕ) :
    buf_mjpeg_to_rgb decM width height [] = .error .emptyInput
  ∧ buf_nv12_to_rgb decN width height [] = .error .emptyInput
  ∧ buf_yuyv422_to_rgb decY width height [] = .error .emptyInput
  ∧ (∀ decM2, buf_mjpeg_to_rgb decM width height [] = buf_mjpeg_to_rgb decM2 width height [])
  ∧ (∀ decN2, buf_nv12_to_rgb decN width height [] = buf_nv12_to_rgb decN2 width height [])
  ∧ (∀ decY2, buf_yuyv422_to_rgb decY width height [] = buf_yuyv422_to_rgb decY2 width height []) :=
  ⟨rfl, rfl, rfl, fun _ => rfl, fun _ => rfl, fun _ => rfl⟩

end NokhwaNode
